import Mathlib

/-!
Verification of the AtelierAI Civitai harvesting core against its design
specification.  The Python sources embedded here are:

- backend/legacy/civitai_refactored.py  (class CivitaiPrivateScraper)
- backend/src/civitai_api.py            (class CivitaiAPI)
- backend/src/civitai_image.py          (class CivitaiImage)

JSON values are modelled by the inductive type JVal; Python strings by
String or List Char (a Python str is a sequence of code points); Python
dicts by association lists in insertion order (Python dicts preserve
insertion order and have unique keys); functions that can raise an
exception return Except String with the exception class name.
-/

/-- JSON-like values as produced by response.json() and handled by the
scraper: null, booleans, numbers, strings, arrays and objects. -/
inductive JVal where
  | null
  | bool (b : Bool)
  | num (n : Int)
  | str (s : String)
  | arr (xs : List JVal)
  | obj (kvs : List (String × JVal))
  deriving Repr

/-- Python dict.get(k): the value of the first (only) entry with key k,
or none when the key is absent. -/
def pyGet (kvs : List (String × JVal)) (k : String) : Option JVal :=
  match kvs with
  | [] => none
  | (k2, v) :: rest => if k2 = k then some v else pyGet rest k

/-- Python truthiness of a JSON value: None, False, 0, empty string,
empty list and empty dict are falsy, everything else is truthy. -/
def truthy (v : JVal) : Bool :=
  match v with
  | .null => false
  | .bool b => b
  | .num n => n != 0
  | .str s => s != ""
  | .arr xs => !xs.isEmpty
  | .obj kvs => !kvs.isEmpty

/-- Truthiness of an optional value (a Python variable that may hold None). -/
def truthyOpt (r : Option JVal) : Bool :=
  match r with
  | none => false
  | some v => truthy v

/-- Python == between a JSON value and a string literal: only equal
strings compare equal, any other type compares unequal. -/
def isStrEq (v : JVal) (s : String) : Bool :=
  match v with
  | .str t => t == s
  | _ => false

mutual

/-- Python == on JSON values (structural equality; objects are compared
entrywise in order, which coincides with dict equality for the scalar
cursor and id values the scraper actually compares). -/
def jbeq : JVal → JVal → Bool
  | .null, .null => true
  | .bool a, .bool b => a == b
  | .num a, .num b => a == b
  | .str a, .str b => a == b
  | .arr xs, .arr ys => jbeqL xs ys
  | .obj xs, .obj ys => jbeqO xs ys
  | _, _ => false
termination_by structural a => a

/-- Elementwise equality of JSON arrays. -/
def jbeqL : List JVal → List JVal → Bool
  | [], [] => true
  | x :: xs, y :: ys => jbeq x y && jbeqL xs ys
  | _, _ => false
termination_by structural a => a

/-- Entrywise equality of JSON objects. -/
def jbeqO : List (String × JVal) → List (String × JVal) → Bool
  | [], [] => true
  | (k1, v1) :: xs, (k2, v2) :: ys => k1 == k2 && jbeq v1 v2 && jbeqO xs ys
  | _, _ => false
termination_by structural a => a

end

/-! ## Envelope codec

CivitaiAPI._build_trpc_payload (civitai_api.py lines 199-210) and
CivitaiPrivateScraper._build_trpc_payload (civitai_refactored.py lines
174-190) both serialize the dict given by buildTrpcEnvelope below:
the outgoing envelope holds the request parameters under the key json,
plus the pagination-metadata block, and the metadata block is attached
exactly when input_json.get("cursor") is None. -/

/-- True when input_json.get("cursor") is None in Python: the cursor key
is absent, or present with value null. -/
def cursorIsNone (input : List (String × JVal)) : Bool :=
  match pyGet input "cursor" with
  | none => true
  | some .null => true
  | some _ => false

/-- The pagination-metadata value sent on the first page, i.e. the value
of the key meta inside the envelope. -/
def metaValuesBlock : JVal :=
  .obj [("values", .obj [("cursor", .arr [.str "undefined"])])]

/-- The key-value pairs of the envelope dict that _build_trpc_payload
passes to json.dumps. -/
def buildTrpcEnvelope (input : List (String × JVal)) : List (String × JVal) :=
  [("json", .obj input)] ++
    (if cursorIsNone input then [("meta", metaValuesBlock)] else [])

/-! ## Deep result locator

CivitaiPrivateScraper._find_deep_image_list (civitai_refactored.py lines
192-225); CivitaiAPI carries the equivalent implementation split into
_is_image_list / _search_list / _search_dict_keys / _search_dict_values
(civitai_api.py lines 497-547). -/

/-- A node is the item list when it is a non-empty array whose first
element is a dict with an id key and type field equal to "image". -/
def isImageList (xs : List JVal) : Bool :=
  match xs with
  | [] => false
  | x :: _ =>
    match x with
    | .obj kvs =>
        (pyGet kvs "id").isSome && isStrEq ((pyGet kvs "type").getD .null) "image"
    | _ => false

/-- isImageList lifted to a JSON value (false on anything but an array). -/
def isImageListJ (v : JVal) : Bool :=
  match v with
  | .arr xs => isImageList xs
  | _ => false

mutual

/-- The recursive search of _find_deep_image_list: depth counts up from 0
and the search gives up once depth exceeds 10. -/
def findDeep (v : JVal) (d : Nat) : Option JVal :=
  if d > 10 then none
  else
    match v with
    | .arr xs => if isImageList xs then some (.arr xs) else searchList xs d
    | .obj kvs =>
        let r1 := probeKey kvs "items" d
        if truthyOpt r1 then r1
        else
          let r2 := probeKey kvs "pages" d
          if truthyOpt r2 then r2
          else searchDictVals kvs d
    | _ => none
termination_by structural v

/-- The for-loop over a list node: recurse into each element in order and
return the first truthy result. -/
def searchList (xs : List JVal) (d : Nat) : Option JVal :=
  match xs with
  | [] => none
  | x :: rest =>
      let r := findDeep x (d + 1)
      if truthyOpt r then r else searchList rest d
termination_by structural xs

/-- The probe of a conventional key ("items" or "pages") in a dict node:
when the key is present and its value is a list, recurse into it and
return the result when truthy. -/
def probeKey (kvs : List (String × JVal)) (k : String) (d : Nat) : Option JVal :=
  match kvs with
  | [] => none
  | (k2, v) :: rest =>
      if k2 = k then
        match v with
        | .arr xs =>
            let r := findDeep (.arr xs) (d + 1)
            if truthyOpt r then r else none
        | _ => none
      else probeKey rest k d
termination_by structural kvs

/-- The fallback scan over all values of a dict node in insertion order. -/
def searchDictVals (kvs : List (String × JVal)) (d : Nat) : Option JVal :=
  match kvs with
  | [] => none
  | (_, v) :: rest =>
      let r := findDeep v (d + 1)
      if truthyOpt r then r else searchDictVals rest d
termination_by structural kvs

end

/-- Whether an item-shaped array occurs in the tree within b further
levels of nesting below (and including) the given node: the node itself
is item-shaped, or b allows one more level and some child contains one
within b - 1 levels. -/
def existsImg : Nat → JVal → Bool
  | b, v =>
    isImageListJ v ||
      match b, v with
      | b2 + 1, .arr xs => xs.any (fun x => existsImg b2 x)
      | b2 + 1, .obj kvs => kvs.any (fun p => existsImg b2 p.2)
      | _, _ => false
termination_by structural b => b

/-! ## Cursor paginator

CivitaiPrivateScraper.fetch_collection_items (civitai_refactored.py lines
38-126).  The HTTP transport is abstracted as a pure endpoint function
from (request index, current cursor value) to (status code, decoded JSON
body); the unbounded while-True loop is given explicit fuel (the source
loop has no bound of its own, so every theorem below either holds for all
fuel or exhibits termination well before the supplied fuel runs out). -/

/-- What fetch_collection_items produces: the accumulated items list, plus
the number of HTTP requests that were issued (observable behaviour of the
loop, counted at the requests.get call site). -/
structure FetchOutcome where
  items : List JVal
  fetches : Nat
  deriving Repr

/-- The set comprehension building new_item_ids: item.get("id") for each
page item.  A page element that is not a dict makes item.get raise
AttributeError. -/
def extractIds : List JVal → Except String (List (Option JVal))
  | [] => .ok []
  | x :: rest =>
    match x with
    | .obj kvs =>
        match extractIds rest with
        | .ok ids => .ok (pyGet kvs "id" :: ids)
        | .error e => .error e
    | _ => .error "AttributeError"

/-- Python == on optional values (an id may be None when the dict has no
id key). -/
def obeq (a b : Option JVal) : Bool :=
  match a, b with
  | none, none => true
  | some x, some y => jbeq x y
  | _, _ => false

/-- len(new_item_ids & seen_item_ids) > 0: some id of the current page was
already seen. -/
def hasDuplicate (newIds seen : List (Option JVal)) : Bool :=
  newIds.any (fun i => seen.any (fun s => obeq s i))

/-- Python v.get(k, default): raises AttributeError unless v is a dict. -/
def dictGetDefE (v : JVal) (k : String) (dflt : JVal) : Except String JVal :=
  match v with
  | .obj kvs => .ok ((pyGet kvs k).getD dflt)
  | _ => .error "AttributeError"

/-- The cursor extraction inside the try block of fetch_collection_items:
data.get("result", {}).get("data", {}).get("json", {}).get("nextCursor").
A raised exception is reported as an error value (the caller catches it
and breaks). -/
def nextCursorTry (body : JVal) : Except String JVal :=
  match dictGetDefE body "result" (.obj []) with
  | .error e => .error e
  | .ok r =>
    match dictGetDefE r "data" (.obj []) with
    | .error e => .error e
    | .ok d2 =>
      match dictGetDefE d2 "json" (.obj []) with
      | .error e => .error e
      | .ok j => dictGetDefE j "nextCursor" .null

/-- The page extraction: _find_deep_image_list applied to the decoded
body.  The locator only ever returns arrays, so a found value is read back
as its element list. -/
def pageItemsOf (body : JVal) : Option (List JVal) :=
  match findDeep body 0 with
  | some (.arr xs) => some xs
  | _ => none

/-- One execution of the while-True loop of fetch_collection_items,
carrying the loop state (cursor, items, seen_item_ids, request count).
Each ok-result is one of the break sites of the source loop; fuel 0
returns the state reached so far (only relevant past the supplied fuel). -/
def fetchLoop (endpoint : Nat → JVal → Nat × JVal) (limit : Option Nat) :
    Nat → JVal → List JVal → List (Option JVal) → Nat → Except String FetchOutcome
  | 0, _, items, _, fetches => .ok ⟨items, fetches⟩
  | fuel + 1, cursor, items, seen, fetches =>
      let limitHit : Bool :=
        match limit with
        | some l => decide (items.length ≥ l)
        | none => false
      if limitHit then .ok ⟨items, fetches⟩
      else
        let resp := endpoint fetches cursor
        let fetches2 := fetches + 1
        if resp.1 ≠ 200 then .ok ⟨items, fetches2⟩
        else
          match pageItemsOf resp.2 with
          | none => .ok ⟨items, fetches2⟩
          | some pageItems =>
            if pageItems.isEmpty then .ok ⟨items, fetches2⟩
            else
              match extractIds pageItems with
              | .error e => .error e
              | .ok newIds =>
                if hasDuplicate newIds seen then .ok ⟨items, fetches2⟩
                else
                  let seen2 := seen ++ newIds
                  let remaining : Option Nat :=
                    match limit with
                    | some l => if l = 0 then none else some (l - items.length)
                    | none => none
                  match remaining with
                  | some rem =>
                      if pageItems.length > rem then
                        .ok ⟨items ++ pageItems.take rem, fetches2⟩
                      else
                        match nextCursorTry resp.2 with
                        | .error _ => .ok ⟨items ++ pageItems, fetches2⟩
                        | .ok nc =>
                            if truthy nc && !jbeq nc cursor then
                              fetchLoop endpoint limit fuel nc (items ++ pageItems)
                                seen2 fetches2
                            else .ok ⟨items ++ pageItems, fetches2⟩
                  | none =>
                      match nextCursorTry resp.2 with
                      | .error _ => .ok ⟨items ++ pageItems, fetches2⟩
                      | .ok nc =>
                          if truthy nc && !jbeq nc cursor then
                            fetchLoop endpoint limit fuel nc (items ++ pageItems)
                              seen2 fetches2
                          else .ok ⟨items ++ pageItems, fetches2⟩

/-- fetch_collection_items: run the loop from the initial state
(cursor = None, items = [], seen_item_ids = empty, no requests yet). -/
def fetchCollectionItems (endpoint : Nat → JVal → Nat × JVal)
    (limit : Option Nat) (fuel : Nat) : Except String FetchOutcome :=
  fetchLoop endpoint limit fuel .null [] [] 0

/-! Mock endpoints for the pagination properties. -/

/-- A minimal list-stage item with the given id. -/
def mkImageItem (i : Int) : JVal := .obj [("id", .num i), ("type", .str "image")]

/-- A response body of the shape the image.getInfinite endpoint returns:
result.data.json holds the items array and the nextCursor. -/
def mkListBody (xs : List JVal) (nc : JVal) : JVal :=
  .obj [("result", .obj [("data", .obj [("json",
    .obj [("items", .arr xs), ("nextCursor", nc)])])])]

/-- The page returned by the stalled mock endpoint. -/
def stallPage : List JVal := [mkImageItem 1, mkImageItem 2, mkImageItem 3]

/-- A stalled endpoint: every request, whatever the cursor, returns the
same page with nextCursor "a" (cursor sequence null to "a", then "a" to
"a"). -/
def stallEndpoint (_ : Nat) (_ : JVal) : Nat × JVal :=
  (200, mkListBody stallPage (.str "a"))

/-- A paging endpoint whose page for the k-th request holds the three
fresh ids 3k+1, 3k+2, 3k+3 and advances the cursor to k+1. -/
def pagedEndpoint (fetchIdx : Nat) (_ : JVal) : Nat × JVal :=
  (200, mkListBody
    [mkImageItem (3 * (fetchIdx : Int) + 1),
     mkImageItem (3 * (fetchIdx : Int) + 2),
     mkImageItem (3 * (fetchIdx : Int) + 3)]
    (.num ((fetchIdx : Int) + 1)))

/-! ## Deep locator specification (claim C4) -/

/-- Behaviour of findDeep at a node, for every call depth d: any found
value is an item-shaped array, and (for call depths within the bound) a
value is found exactly when an item-shaped array occurs within the
remaining 10 - d levels. -/
def FDSpec (x : JVal) : Prop :=
  ∀ d : Nat,
    (∀ l, findDeep x d = some l → isImageListJ l = true) ∧
    (d ≤ 10 → (findDeep x d).isSome = existsImg (10 - d) x)

/-! ## Python string helpers (code points as List Char) -/

/-- Whether hay starts with needle. -/
def listStartsWith : List Char → List Char → Bool
  | [], _ => true
  | _ :: _, [] => false
  | n :: ns, h :: hs => n == h && listStartsWith ns hs

/-- Python substring containment (needle in hay). -/
def hasSubstr (needle : List Char) : List Char → Bool
  | [] => needle.isEmpty
  | c :: rest => listStartsWith needle (c :: rest) || hasSubstr needle rest

/-- Python str.lower (per code point). -/
def lowerStr (s : List Char) : List Char := s.map Char.toLower

/-- Python str.strip(): drop whitespace from both ends. -/
def pyStrip (s : List Char) : List Char :=
  ((s.dropWhile Char.isWhitespace).reverse.dropWhile Char.isWhitespace).reverse

/-! ## API single-page collection fetch

CivitaiAPI._make_request (civitai_api.py lines 212-245) and
CivitaiAPI.fetch_collection_items (civitai_api.py lines 408-429).  The
transport argument models what session.get produced: an error value for a
raised network exception, or a (status code, decoded JSON body) pair. -/

/-- Python k in v: key membership for dicts, element equality for lists,
substring for strings, TypeError otherwise. -/
def pyContainsE (v : JVal) (k : String) : Except String Bool :=
  match v with
  | .obj kvs => .ok (pyGet kvs k).isSome
  | .arr xs => .ok (xs.any (fun x => jbeq x (.str k)))
  | .str s => .ok (hasSubstr k.data s.data)
  | _ => .error "TypeError"

/-- Python v[k] with a string key: dict lookup (KeyError when absent),
TypeError on anything that is not a dict. -/
def pyIndexE (v : JVal) (k : String) : Except String JVal :=
  match v with
  | .obj kvs =>
      match pyGet kvs k with
      | some x => .ok x
      | none => .error "KeyError"
  | _ => .error "TypeError"

/-- The tRPC unwrapping inside _make_request: when the body has
result.data, return result.data.json when present, else result.data, else
the raw body. -/
def navigateTrpc (data : JVal) : Except String JVal :=
  match pyContainsE data "result" with
  | .error e => .error e
  | .ok c1 =>
      if c1 then
        match pyIndexE data "result" with
        | .error e => .error e
        | .ok r =>
            match pyContainsE r "data" with
            | .error e => .error e
            | .ok c2 =>
                if c2 then
                  match pyIndexE r "data" with
                  | .error e => .error e
                  | .ok rd =>
                      match pyContainsE rd "json" with
                      | .error e => .error e
                      | .ok c3 => if c3 then pyIndexE rd "json" else .ok rd
                else .ok data
      else .ok data

/-- _make_request: any exception inside the try block (network failure or
navigation TypeError) is caught and turned into None, as is a non-200
status. -/
def makeRequest (transport : Except String (Nat × JVal)) : Option JVal :=
  match transport with
  | .error _ => none
  | .ok resp =>
      if resp.1 = 200 then
        match navigateTrpc resp.2 with
        | .ok v => some v
        | .error _ => none
      else none

/-- CivitaiAPI.fetch_collection_items after the request: the local name
result is assigned only inside the truthiness guard on the response, and
the return line reads it unconditionally, so a falsy response leaves it
unbound and the return raises UnboundLocalError. -/
def apiFetchCollectionItems (transport : Except String (Nat × JVal)) :
    Except String JVal :=
  match makeRequest transport with
  | some response =>
      if truthy response then
        match findDeep response 0 with
        | some l => .ok l
        | none => .ok (.arr [])
      else .error "UnboundLocalError"
  | none => .error "UnboundLocalError"

/-- The single good page served by the failing mock endpoint. -/
def errorPage : List JVal := [mkImageItem 1, mkImageItem 2]

/-- A mock endpoint whose first request succeeds with a next cursor and
whose second request fails with HTTP 500. -/
def errorEndpoint (fetchIdx : Nat) (_ : JVal) : Nat × JVal :=
  if fetchIdx = 0 then (200, mkListBody errorPage (.str "b")) else (500, .null)

/-! ## Credential resolver

CivitaiAPI._get_session_token_from_cache (civitai_api.py lines 110-126),
_get_session_token_from_env (lines 128-136) and
_get_session_token_from_config (lines 158-168).  File contents,
environment variables and the config value are passed in as optional
strings (none models a missing file, unset variable or None config). -/

/-- Cache source: read the file when present, strip it, and trust the
token only when it is truthy and strictly longer than 100 characters. -/
def getSessionTokenFromCache (fileContent : Option (List Char)) :
    Option (List Char) :=
  match fileContent with
  | none => none
  | some raw =>
      let token := pyStrip raw
      if token ≠ [] ∧ token.length > 100 then some token else none

/-- Environment source: the first truthy of the two variables, trusted
under the same strict length threshold. -/
def getSessionTokenFromEnv (a b : Option (List Char)) : Option (List Char) :=
  let envToken :=
    match a with
    | some s => if s = [] then b else some s
    | none => b
  match envToken with
  | some t => if t ≠ [] ∧ t.length > 100 then some t else none
  | none => none

/-- Static-config source: trusted under the same strict length threshold. -/
def getSessionTokenFromConfig (cookie : Option (List Char)) :
    Option (List Char) :=
  match cookie with
  | some c => if c ≠ [] ∧ c.length > 100 then some c else none
  | none => none

/-- A token of exactly 100 characters. -/
def token100 : List Char := List.replicate 100 'a'

/-! ## MIME mapping and filename normalization

CivitaiPrivateScraper._get_extension_from_mime /
_sanitize_filename_extension (civitai_refactored.py lines 231-281), and
CivitaiImage._get_extension_from_mime / _get_safe_filename
(civitai_image.py lines 85-128).  The legacy class splits names with
os.path.splitext, the CivitaiImage class with str.rsplit(".", 1). -/

/-- The fixed MIME-to-extension table, with .jpeg as the fallback for an
empty or unrecognized type; matching is by substring of the lowercased
MIME string, in source order. -/
def getExtensionFromMime (mime : List Char) : List Char :=
  if mime = [] then ".jpeg".data
  else
    let mimeLower := lowerStr mime
    if hasSubstr "png".data mimeLower then ".png".data
    else if hasSubstr "webp".data mimeLower then ".webp".data
    else if hasSubstr "tiff".data mimeLower || hasSubstr "tif".data mimeLower then
      ".tif".data
    else if hasSubstr "mp4".data mimeLower then ".mp4".data
    else if hasSubstr "jpeg".data mimeLower || hasSubstr "jpg".data mimeLower then
      ".jpeg".data
    else ".jpeg".data

/-- Index of the last occurrence of a character (Python str.rfind, with
none for -1). -/
def rfindIdx (c : Char) : List Char → Option Nat
  | [] => none
  | x :: xs =>
      match rfindIdx c xs with
      | some r => some (r + 1)
      | none => if x == c then some 0 else none

/-- os.path.splitext (genericpath._splitext with sep "/"): the extension
starts at the last dot, provided that dot comes after the last separator
and some earlier character of the final path component is not a dot
(leading dots of the basename never start an extension). -/
def splitext (p : List Char) : List Char × List Char :=
  match rfindIdx '.' p with
  | none => (p, [])
  | some di =>
      let fi : Nat :=
        match rfindIdx '/' p with
        | none => 0
        | some si => si + 1
      if (match rfindIdx '/' p with
          | none => true
          | some si => decide (si < di)) then
        if ((p.drop fi).take (di - fi)).any (fun ch => ch != '.') then
          (p.take di, p.drop di)
        else (p, [])
      else (p, [])

/-- _sanitize_filename_extension: empty names become unknown plus the
MIME extension; otherwise keep the name when its (lowercased) splitext
extension equals the MIME extension, and replace the extension (or append
one) in the other two cases. -/
def sanitizeFilenameExtension (name mime : List Char) : List Char :=
  if name = [] then "unknown".data ++ getExtensionFromMime mime
  else
    let targetExt := getExtensionFromMime mime
    let pr := splitext name
    let currentExt := if pr.2 ≠ [] then lowerStr pr.2 else pr.2
    if currentExt = [] then pr.1 ++ targetExt
    else if currentExt = targetExt then name
    else pr.1 ++ targetExt

/-- Python name.rsplit(".", 1) on a name containing a dot: the part
before the last dot, and the part after it (without the dot). -/
def rsplitDot (s : List Char) : List Char × List Char :=
  match rfindIdx '.' s with
  | none => (s, [])
  | some di => (s.take di, s.drop (di + 1))

/-- CivitaiImage._get_safe_filename: same three-case policy, but the
current extension comes from rsplit and so carries no leading dot, while
the target extension does. -/
def getSafeFilename (imageName mime : List Char) : List Char :=
  let targetExt := getExtensionFromMime mime
  let pr := if '.' ∈ imageName then rsplitDot imageName else (imageName, [])
  let currentExt := if pr.2 ≠ [] then lowerStr pr.2 else pr.2
  if currentExt = [] then pr.1 ++ targetExt
  else if currentExt = targetExt then imageName
  else pr.1 ++ targetExt

/-- Start of the final path component (index just after the last slash). -/
def fiOf (base : List Char) : Nat :=
  match rfindIdx '/' base with
  | none => 0
  | some si => si + 1

/-- Whether the final path component contains a character other than a
dot (the condition under which appending an extension to the string
produces a name whose splitext extension is that extension). -/
def lastComponentHasNonDot (base : List Char) : Bool :=
  (base.drop (fiOf base)).any (fun ch => ch != '.')

/-- A token of 101 characters (just above the validity threshold). -/
def token101 : List Char := List.replicate 101 'a'

/-! ## Resource classifier and extraction

CivitaiPrivateScraper._get_resource_type (civitai_refactored.py lines
283-299) and _process_resources (lines 301-336). -/

/-- Python value.lower(): only strings have the method, anything else
raises AttributeError. -/
def pyLower (v : JVal) : Except String String :=
  match v with
  | .str s => .ok (String.mk (lowerStr s.data))
  | _ => .error "AttributeError"

/-- Python substring containment on strings. -/
def strContains (needle hay : String) : Bool := hasSubstr needle.data hay.data

/-- _get_resource_type: the lowercased modelType field, else the
lowercased type field, else a substring probe of the lowercased
modelName, defaulting to "model". -/
def getResourceType (kvs : List (String × JVal)) : Except String String :=
  let t1 := (pyGet kvs "modelType").getD .null
  if truthy t1 then pyLower t1
  else
    let t2 := (pyGet kvs "type").getD .null
    if truthy t2 then pyLower t2
    else
      match pyLower ((pyGet kvs "modelName").getD (.str "")) with
      | .error e => .error e
      | .ok nameRes =>
          if strContains "lora" nameRes then .ok "lora"
          else if strContains "checkpoint" nameRes then .ok "checkpoint"
          else .ok "model"

/-- The loop of _process_resources, threading the mutable state
(model_name, model_version, loras).  A lora resource is appended to the
list, a checkpoint resource overwrites the model identity, and a
plain-model resource fills the identity only while it is still falsy or
"Unknown". -/
def processResourcesFrom : List JVal → JVal × JVal × List JVal →
    Except String (JVal × JVal × List JVal)
  | [], st => .ok st
  | res :: rest, (mn, mv, loras) =>
      match res with
      | .obj kvs =>
          match getResourceType kvs with
          | .error e => .error e
          | .ok tyLower =>
              let nameRes := (pyGet kvs "modelName").getD .null
              let weight :=
                let s := (pyGet kvs "strength").getD .null
                if truthy s then s else .num 1
              let versionName := (pyGet kvs "versionName").getD .null
              let modelId := (pyGet kvs "modelId").getD .null
              let modelVersionId :=
                let a := (pyGet kvs "modelVersionId").getD .null
                if truthy a then a else (pyGet kvs "versionId").getD .null
              if tyLower = "lora" then
                processResourcesFrom rest (mn, mv, loras ++ [.obj
                  [("name", nameRes), ("weight", weight), ("model_id", modelId),
                   ("model_version_id", modelVersionId),
                   ("version_name", versionName)]])
              else if tyLower = "checkpoint" then
                processResourcesFrom rest
                  (nameRes, if truthy versionName then versionName else .str "", loras)
              else if tyLower = "model" ∧
                  (truthy mn = false ∨ jbeq mn (.str "Unknown") = true) then
                processResourcesFrom rest
                  (nameRes, if truthy versionName then versionName else .str "", loras)
              else processResourcesFrom rest (mn, mv, loras)
      | _ => .error "AttributeError"

/-- _process_resources: run the loop from the initial state
model_name = "Unknown", model_version = "", loras = []. -/
def processResources (resources : List JVal) :
    Except String (JVal × JVal × List JVal) :=
  processResourcesFrom resources (.str "Unknown", .str "", [])

/-- A checkpoint-typed resource named ModelA. -/
def checkpointResA : List (String × JVal) :=
  [("modelType", .str "Checkpoint"), ("modelName", .str "ModelA"),
   ("versionName", .str "vA")]

/-- A checkpoint-typed resource named ModelB. -/
def checkpointResB : List (String × JVal) :=
  [("modelType", .str "Checkpoint"), ("modelName", .str "ModelB"),
   ("versionName", .str "vB")]

/-! ## Author resolution

CivitaiPrivateScraper._merge_data (civitai_refactored.py lines 360-366)
and CivitaiImage.from_collection_item (civitai_image.py lines 558-564)
resolve the author with the same or-chain:
collection_item.get("username") or
collection_item.get("user", dict()).get("username") or
collection_item.get("account", dict()).get("username") or "Unknown". -/

/-- Whether a JSON value is a dict. -/
def isObjJ (v : JVal) : Bool :=
  match v with
  | .obj _ => true
  | _ => false

/-- Python v.get(k) on the result of an earlier .get(..., default): only
dicts have the method, so a non-dict value (for example an explicit null
stored under the key) raises AttributeError. -/
def mapGetAttr (v : JVal) (k : String) : Except String JVal :=
  match v with
  | .obj kvs => .ok ((pyGet kvs k).getD .null)
  | _ => .error "AttributeError"

/-- The author or-chain exactly as the source evaluates it: each stage is
consulted only while every earlier stage produced a falsy value, and the
nested stages call .get on whatever the item stores under user/account
(defaulting to an empty dict only when the key is absent). -/
def resolveAuthor (item : List (String × JVal)) : Except String JVal :=
  let e1 := (pyGet item "username").getD .null
  if truthy e1 then .ok e1
  else
    match mapGetAttr ((pyGet item "user").getD (.obj [])) "username" with
    | .error e => .error e
    | .ok e2 =>
        if truthy e2 then .ok e2
        else
          match mapGetAttr ((pyGet item "account").getD (.obj [])) "username" with
          | .error e => .error e
          | .ok e3 => if truthy e3 then .ok e3 else .ok (.str "Unknown")

/-- The author resolution as the specification words it: try the flat
username, then the nested user-object username, then the nested
account-object username, else the "Unknown" sentinel — written here as a
total function for comparison with the source chain. -/
def authorSpecLookup (item : List (String × JVal)) : JVal :=
  let flat := (pyGet item "username").getD .null
  if truthy flat then flat
  else
    let fromUser :=
      match pyGet item "user" with
      | some (.obj kvs) => (pyGet kvs "username").getD .null
      | _ => .null
    if truthy fromUser then fromUser
    else
      let fromAccount :=
        match pyGet item "account" with
        | some (.obj kvs) => (pyGet kvs "username").getD .null
        | _ => .null
      if truthy fromAccount then fromAccount else .str "Unknown"

/-! ## Theorems -/

/-- Claim C2: against the stalled endpoint (cursor sequence null to "a",
then "a" to "a", second page repeating the first page's ids),
fetch_collection_items issues exactly 2 requests, detects the duplicate
page, stops without a further request even with ample fuel left, and
returns the items of the first page. -/
theorem claim2_duplicate_stall :
    fetchCollectionItems stallEndpoint none 1000 = .ok ⟨stallPage, 2⟩ := rfl

/-- Claim C1: the envelope built by _build_trpc_payload carries the
pagination-metadata block (the meta key holding values.cursor =
["undefined"]) precisely when the payload's cursor is null or absent, and
carries no meta key at all otherwise. -/
theorem claim1_envelope_meta (input : List (String × JVal)) :
    pyGet (buildTrpcEnvelope input) "meta" =
      (if cursorIsNone input then some metaValuesBlock else none) := by
  by_cases h : cursorIsNone input = true
  · simp [buildTrpcEnvelope, h, pyGet]
  · simp [buildTrpcEnvelope, pyGet, h]

/-- Invariant of the pagination loop: with a positive limit n, once the
accumulated items list has length at most n it keeps length at most n
through every break site (the top-of-loop limit check plus the trimming
of the final page to the remaining budget). -/
theorem fetchLoop_le (endpoint : Nat → JVal → Nat × JVal) (n : Nat) (hn : 0 < n) :
    ∀ (fuel : Nat) (cursor : JVal) (items : List JVal) (seen : List (Option JVal))
      (fetches : Nat) (out : FetchOutcome),
      items.length ≤ n →
      fetchLoop endpoint (some n) fuel cursor items seen fetches = .ok out →
      out.items.length ≤ n := by
  intro fuel
  induction fuel with
  | zero =>
      intro cursor items seen fetches out hlen h
      simp only [fetchLoop] at h
      injection h with h2
      rw [← h2]
      exact hlen
  | succ fuel ih =>
      intro cursor items seen fetches out hlen h
      simp only [fetchLoop] at h
      split at h
      · injection h with h2; rw [← h2]; exact hlen
      · rename_i hnolim
        have hlt : items.length < n := by
          simp only [decide_eq_true_eq] at hnolim; omega
        split at h
        · injection h with h2; rw [← h2]; exact hlen
        · split at h
          · injection h with h2; rw [← h2]; exact hlen
          · rename_i pageItems hpage
            split at h
            · injection h with h2; rw [← h2]; exact hlen
            · split at h
              · exact absurd h (by simp)
              · rename_i newIds hids
                split at h
                · injection h with h2; rw [← h2]; exact hlen
                · split at h
                  · rename_i rem hrem
                    rw [if_neg (by omega)] at hrem
                    injection hrem with hrem2
                    split at h
                    · rename_i htrim
                      injection h with h2
                      rw [← h2]
                      simp only [List.length_append, List.length_take]
                      omega
                    · split at h
                      · injection h with h2; rw [← h2]
                        rename_i htrim _ _
                        simp only [List.length_append]
                        omega
                      · rename_i htrim nc
                        split at h
                        · exact ih _ _ _ _ _
                            (by simp only [List.length_append]; omega) h
                        · injection h with h2; rw [← h2]
                          simp only [List.length_append]
                          omega
                  · rename_i hrem
                    rw [if_neg (by omega)] at hrem
                    exact absurd hrem (by simp)

/-- Claim C3: with any positive limit n, fetch_collection_items returns at
most n items (the final page is trimmed to the remaining budget); in
particular with limit 5 against an endpoint serving pages of 3 fresh items
each, exactly 5 items come back after 2 requests, never 6. -/
theorem claim3_limit_bound :
    (∀ (endpoint : Nat → JVal → Nat × JVal) (fuel n : Nat) (out : FetchOutcome),
        0 < n →
        fetchCollectionItems endpoint (some n) fuel = .ok out →
        out.items.length ≤ n) ∧
      fetchCollectionItems pagedEndpoint (some 5) 1000 =
        .ok ⟨[mkImageItem 1, mkImageItem 2, mkImageItem 3,
              mkImageItem 4, mkImageItem 5], 2⟩ := by
  constructor
  · intro endpoint fuel n out hn h
    exact fetchLoop_le endpoint n hn fuel .null [] [] 0 out (by simp) h
  · rfl

/-- Witness for claim C3 at the concrete paged endpoint with limit 5. -/
theorem claim3_limit_bound_witness :
    (fetchCollectionItems pagedEndpoint (some 5) 1000 =
        .ok ⟨[mkImageItem 1, mkImageItem 2, mkImageItem 3,
              mkImageItem 4, mkImageItem 5], 2⟩) ∧
      (FetchOutcome.mk [mkImageItem 1, mkImageItem 2, mkImageItem 3,
        mkImageItem 4, mkImageItem 5] 2).items.length ≤ 5 :=
  ⟨claim3_limit_bound.2,
    claim3_limit_bound.1 pagedEndpoint 1000 5 _ (by decide) claim3_limit_bound.2⟩

/-- Past the depth bound the search returns nothing. -/
theorem findDeep_gt10 (v : JVal) (d : Nat) (h : 10 < d) : findDeep v d = none := by
  cases v <;> simp [findDeep, h]

/-- An item-shaped array is non-empty, hence truthy. -/
theorem truthy_of_isImageListJ (l : JVal) (h : isImageListJ l = true) :
    truthy l = true := by
  cases l with
  | arr xs =>
      cases xs with
      | nil => simp [isImageListJ, isImageList] at h
      | cons a rest => simp [truthy]
  | null => simp [isImageListJ] at h
  | bool b => simp [isImageListJ] at h
  | num n => simp [isImageListJ] at h
  | str s => simp [isImageListJ] at h
  | obj kvs => simp [isImageListJ] at h

/-- For results that are always item-shaped, the truthiness test of the
source (if res: return res) coincides with an is-some test. -/
theorem truthyOpt_eq_isSome (r : Option JVal)
    (h : ∀ l, r = some l → isImageListJ l = true) :
    truthyOpt r = r.isSome := by
  cases r with
  | none => rfl
  | some l => simp [truthyOpt, truthy_of_isImageListJ l (h l rfl)]

/-- Specification of the element loop over an array node. -/
theorem searchList_spec (d : Nat) (xs : List JVal) (hx : ∀ x ∈ xs, FDSpec x) :
    (∀ l, searchList xs d = some l → isImageListJ l = true) ∧
      (searchList xs d).isSome =
        (if d < 10 then xs.any (fun x => existsImg (9 - d) x) else false) := by
  induction xs with
  | nil => simp [searchList]
  | cons x rest ihr =>
      have hxspec := hx x (by simp)
      obtain ⟨ih1, ih2⟩ := ihr (fun y hy => hx y (by simp [hy]))
      by_cases hd : d < 10
      · have h1 := (hxspec (d + 1)).1
        have h2 := (hxspec (d + 1)).2 (by omega)
        have ht := truthyOpt_eq_isSome _ h1
        constructor
        · intro l hl
          simp only [searchList] at hl
          by_cases hb : truthyOpt (findDeep x (d + 1)) = true
          · rw [if_pos hb] at hl; exact h1 l hl
          · rw [if_neg hb] at hl; exact ih1 l hl
        · simp only [searchList]
          rw [ht]
          have h9 : 10 - (d + 1) = 9 - d := by omega
          by_cases hs : (findDeep x (d + 1)).isSome = true
          · rw [if_pos hs, if_pos hd]
            rw [h9] at h2
            simp [hs, ← h2]
          · rw [if_neg hs, ih2, if_pos hd, if_pos hd]
            rw [h9] at h2
            have hfalse : existsImg (9 - d) x = false := by
              rw [← h2]; exact Bool.not_eq_true _ ▸ hs
            simp [hfalse]
      · have hnone := findDeep_gt10 x (d + 1) (by omega)
        constructor
        · intro l hl
          simp only [searchList, hnone, truthyOpt] at hl
          exact ih1 l hl
        · simp only [searchList, hnone, truthyOpt]
          simp [ih2, hd]

/-- Specification of the fallback scan over all values of a dict node. -/
theorem searchDictVals_spec (d : Nat) (kvs : List (String × JVal))
    (hx : ∀ p ∈ kvs, FDSpec p.2) :
    (∀ l, searchDictVals kvs d = some l → isImageListJ l = true) ∧
      (searchDictVals kvs d).isSome =
        (if d < 10 then kvs.any (fun p => existsImg (9 - d) p.2) else false) := by
  induction kvs with
  | nil => simp [searchDictVals]
  | cons p rest ihr =>
      obtain ⟨k2, v⟩ := p
      have hvspec := hx (k2, v) (by simp)
      obtain ⟨ih1, ih2⟩ := ihr (fun q hq => hx q (by simp [hq]))
      by_cases hd : d < 10
      · have h1 := (hvspec (d + 1)).1
        have h2 := (hvspec (d + 1)).2 (by omega)
        have ht := truthyOpt_eq_isSome _ h1
        constructor
        · intro l hl
          simp only [searchDictVals] at hl
          by_cases hb : truthyOpt (findDeep v (d + 1)) = true
          · rw [if_pos hb] at hl; exact h1 l hl
          · rw [if_neg hb] at hl; exact ih1 l hl
        · simp only [searchDictVals]
          rw [ht]
          have h9 : 10 - (d + 1) = 9 - d := by omega
          by_cases hs : (findDeep v (d + 1)).isSome = true
          · rw [if_pos hs, if_pos hd]
            rw [h9] at h2
            simp [hs, ← h2]
          · rw [if_neg hs, ih2, if_pos hd, if_pos hd]
            rw [h9] at h2
            have hfalse : existsImg (9 - d) v = false := by
              rw [← h2]; exact Bool.not_eq_true _ ▸ hs
            simp [hfalse]
      · have hnone := findDeep_gt10 v (d + 1) (by omega)
        constructor
        · intro l hl
          simp only [searchDictVals, hnone, truthyOpt] at hl
          exact ih1 l hl
        · simp only [searchDictVals, hnone, truthyOpt]
          simp [ih2, hd]

/-- Specification of the conventional-key probe: a hit is an item-shaped
array, implies the call depth was within bounds, and implies the fallback
scan side also sees an item-shaped array among the dict's values. -/
theorem probeKey_spec (d : Nat) (k : String) (kvs : List (String × JVal))
    (hx : ∀ p ∈ kvs, FDSpec p.2) :
    ∀ l, probeKey kvs k d = some l →
      isImageListJ l = true ∧ d < 10 ∧
        kvs.any (fun p => existsImg (9 - d) p.2) = true := by
  induction kvs with
  | nil => intro l hl; simp [probeKey] at hl
  | cons p rest ihr =>
      obtain ⟨k2, v⟩ := p
      intro l hl
      unfold probeKey at hl
      split at hl
      · split at hl
        · rename_i xs
          have hvspec := hx (k2, .arr xs) (by simp)
          simp only [] at hl
          split at hl
          · rename_i hb
            have hd : d < 10 := by
              by_contra hge
              rw [findDeep_gt10 (.arr xs) (d + 1) (by omega)] at hb
              simp [truthyOpt] at hb
            have h1 := (hvspec (d + 1)).1 l hl
            have h2 := (hvspec (d + 1)).2 (by omega)
            refine ⟨h1, hd, ?_⟩
            have h9 : 10 - (d + 1) = 9 - d := by omega
            rw [h9] at h2
            have hexi : existsImg (9 - d) (JVal.arr xs) = true := by
              rw [← h2, hl]; rfl
            simp [hexi]
          · cases hl
        · cases hl
      · obtain ⟨h1, hd, hany⟩ := ihr (fun q hq => hx q (by simp [hq])) l hl
        exact ⟨h1, hd, by simp [hany]⟩

/-- Every JSON value has positive size. -/
theorem jval_sizeOf_pos (v : JVal) : 0 < sizeOf v := by
  cases v <;> simp

/-- Main specification of the deep locator, by strong induction on the
size of the tree. -/
theorem findDeep_spec_aux : ∀ (n : Nat) (v : JVal), sizeOf v ≤ n → FDSpec v := by
  intro n
  induction n with
  | zero => intro v hv; exact absurd hv (by have := jval_sizeOf_pos v; omega)
  | succ n ih =>
      intro v hv
      have hscalar : ∀ (w : JVal), (∀ d, findDeep w d = none) →
          (∀ b, existsImg b w = false) → FDSpec w := by
        intro w hnone hexf d
        constructor
        · intro l hl; rw [hnone d] at hl; cases hl
        · intro _; rw [hnone d, hexf]; rfl
      cases v with
      | null =>
          apply hscalar
          · intro d
            by_cases hd : 10 < d
            · exact findDeep_gt10 _ _ hd
            · simp [findDeep, hd]
          · intro b; cases b <;> simp [existsImg, isImageListJ]
      | bool b0 =>
          apply hscalar
          · intro d
            by_cases hd : 10 < d
            · exact findDeep_gt10 _ _ hd
            · simp [findDeep, hd]
          · intro b; cases b <;> simp [existsImg, isImageListJ]
      | num n0 =>
          apply hscalar
          · intro d
            by_cases hd : 10 < d
            · exact findDeep_gt10 _ _ hd
            · simp [findDeep, hd]
          · intro b; cases b <;> simp [existsImg, isImageListJ]
      | str s0 =>
          apply hscalar
          · intro d
            by_cases hd : 10 < d
            · exact findDeep_gt10 _ _ hd
            · simp [findDeep, hd]
          · intro b; cases b <;> simp [existsImg, isImageListJ]
      | arr xs =>
          have hx : ∀ x ∈ xs, FDSpec x := by
            intro x hxm
            apply ih
            have h1 : sizeOf x < sizeOf xs := List.sizeOf_lt_of_mem hxm
            have h2 : sizeOf (JVal.arr xs) ≤ n + 1 := hv
            simp at h2
            omega
          intro d
          by_cases hd : 10 < d
          · constructor
            · intro l hl; rw [findDeep_gt10 _ _ hd] at hl; cases hl
            · intro hle; omega
          · have hde : findDeep (.arr xs) d =
                (if isImageList xs then some (.arr xs) else searchList xs d) := by
              simp [findDeep, hd]
            constructor
            · intro l hl
              rw [hde] at hl
              by_cases him : isImageList xs = true
              · rw [if_pos him] at hl
                injection hl with h2
                rw [← h2]; simpa [isImageListJ] using him
              · rw [if_neg him] at hl
                exact (searchList_spec d xs hx).1 l hl
            · intro hle
              rw [hde]
              by_cases him : isImageList xs = true
              · rw [if_pos him]
                have hex : existsImg (10 - d) (JVal.arr xs) = true := by
                  cases h10 : 10 - d <;> simp [existsImg, isImageListJ, him]
                rw [hex]; rfl
              · rw [if_neg him]
                rw [(searchList_spec d xs hx).2]
                by_cases hlt : d < 10
                · rw [if_pos hlt]
                  have h10 : 10 - d = (9 - d) + 1 := by omega
                  rw [h10]
                  simp [existsImg, isImageListJ, him]
                · have hde10 : d = 10 := by omega
                  subst hde10
                  simp [existsImg, isImageListJ, him]
      | obj kvs =>
          have hx : ∀ p ∈ kvs, FDSpec p.2 := by
            intro p hp
            obtain ⟨a, b⟩ := p
            apply ih
            have h1 : sizeOf (a, b) < sizeOf kvs := List.sizeOf_lt_of_mem hp
            have h2 : sizeOf (JVal.obj kvs) ≤ n + 1 := hv
            simp at h1 h2 ⊢
            omega
          intro d
          by_cases hd : 10 < d
          · constructor
            · intro l hl; rw [findDeep_gt10 _ _ hd] at hl; cases hl
            · intro hle; omega
          · have hde : findDeep (.obj kvs) d =
                (if truthyOpt (probeKey kvs "items" d) then probeKey kvs "items" d
                 else if truthyOpt (probeKey kvs "pages" d) then probeKey kvs "pages" d
                 else searchDictVals kvs d) := by
              simp [findDeep, hd]
            constructor
            · intro l hl
              rw [hde] at hl
              by_cases hb1 : truthyOpt (probeKey kvs "items" d) = true
              · rw [if_pos hb1] at hl
                exact (probeKey_spec d "items" kvs hx l hl).1
              · rw [if_neg hb1] at hl
                by_cases hb2 : truthyOpt (probeKey kvs "pages" d) = true
                · rw [if_pos hb2] at hl
                  exact (probeKey_spec d "pages" kvs hx l hl).1
                · rw [if_neg hb2] at hl
                  exact (searchDictVals_spec d kvs hx).1 l hl
            · intro hle
              rw [hde]
              by_cases hb1 : truthyOpt (probeKey kvs "items" d) = true
              · rw [if_pos hb1]
                cases hp : probeKey kvs "items" d with
                | none => rw [hp] at hb1; simp [truthyOpt] at hb1
                | some l =>
                    obtain ⟨h1, hdlt, hany⟩ := probeKey_spec d "items" kvs hx l hp
                    have h10 : 10 - d = (9 - d) + 1 := by omega
                    rw [h10]
                    simp [existsImg, isImageListJ, hany]
              · rw [if_neg hb1]
                by_cases hb2 : truthyOpt (probeKey kvs "pages" d) = true
                · rw [if_pos hb2]
                  cases hp : probeKey kvs "pages" d with
                  | none => rw [hp] at hb2; simp [truthyOpt] at hb2
                  | some l =>
                      obtain ⟨h1, hdlt, hany⟩ := probeKey_spec d "pages" kvs hx l hp
                      have h10 : 10 - d = (9 - d) + 1 := by omega
                      rw [h10]
                      simp [existsImg, isImageListJ, hany]
                · rw [if_neg hb2]
                  rw [(searchDictVals_spec d kvs hx).2]
                  by_cases hlt : d < 10
                  · rw [if_pos hlt]
                    have h10 : 10 - d = (9 - d) + 1 := by omega
                    rw [h10]
                    simp [existsImg, isImageListJ]
                  · have hde10 : d = 10 := by omega
                    subst hde10
                    simp [existsImg, isImageListJ]

/-- The deep-locator specification at every tree. -/
theorem findDeep_spec (v : JVal) : FDSpec v :=
  findDeep_spec_aux (sizeOf v) v le_rfl

/-- Claim C4: the search from depth 0 finds a value exactly when an
item-shaped array is nested within depth 10 of the root (so a tree whose
only item-shaped arrays lie deeper than 10 deterministically yields
nothing), and any value it finds is an item-shaped array; termination is
inherent in findDeep being a total function. -/
theorem claim4_deep_locator (v : JVal) :
    ((findDeep v 0).isSome = existsImg 10 v) ∧
      (∀ l, findDeep v 0 = some l → isImageListJ l = true) := by
  have h := findDeep_spec v 0
  exact ⟨by simpa using h.2 (by omega), h.1⟩

/-- Witness for claim C4 on a concrete response body: the locator finds
the items array nested under result.data.json. -/
theorem claim4_deep_locator_witness :
    ((findDeep (mkListBody stallPage (.str "a")) 0).isSome =
        existsImg 10 (mkListBody stallPage (.str "a"))) ∧
      isImageListJ (.arr stallPage) = true :=
  ⟨(claim4_deep_locator (mkListBody stallPage (.str "a"))).1,
    (claim4_deep_locator (mkListBody stallPage (.str "a"))).2 (.arr stallPage) rfl⟩

/-- Claim C10: the legacy paginator stops on a non-200 page and returns
the items accumulated so far without raising; but the CivitaiAPI variant
of fetch_collection_items raises UnboundLocalError whenever the fetch
fails (non-200 status or a caught network exception both make
_make_request return None, leaving the local result name unassigned). -/
theorem claim10_transport_failure :
    fetchCollectionItems errorEndpoint none 1000 = .ok ⟨errorPage, 2⟩ ∧
      apiFetchCollectionItems (.ok (500, .null)) = .error "UnboundLocalError" ∧
      apiFetchCollectionItems (.error "ConnectionError") = .error "UnboundLocalError" :=
  ⟨rfl, rfl, rfl⟩

/-- Counterexample to claim C6: a 100-character token is rejected by all
three sources, because every check requires length strictly greater than
100 (len(token) > 100), not at least 100. -/
theorem claim6_counterexample :
    getSessionTokenFromCache (some token100) = none ∧
      getSessionTokenFromEnv (some token100) none = none ∧
      getSessionTokenFromConfig (some token100) = none := by
  refine ⟨?_, ?_, ?_⟩ <;> decide

/-- Claim C6 as amended: each source trusts a candidate token exactly when
its length exceeds 100 characters (for the cache source, the length of
the stripped file content). -/
theorem claim6_amended (t : List Char) :
    (getSessionTokenFromConfig (some t) = some t ↔ 100 < t.length) ∧
      (getSessionTokenFromEnv (some t) none = some t ↔ 100 < t.length) ∧
      (getSessionTokenFromCache (some t) = some (pyStrip t) ↔
        100 < (pyStrip t).length) := by
  have hlen : 100 < t.length → t ≠ [] := by
    intro h he; subst he; simp at h
  refine ⟨?_, ?_, ?_⟩
  · constructor
    · intro h
      simp only [getSessionTokenFromConfig] at h
      split at h
      · rename_i hc; exact hc.2
      · cases h
    · intro h
      simp [getSessionTokenFromConfig, hlen h, h]
  · constructor
    · intro h
      by_cases he : t = []
      · subst he; simp [getSessionTokenFromEnv] at h
      · simp only [getSessionTokenFromEnv, if_neg he] at h
        split at h
        · rename_i hc; exact hc.2
        · cases h
    · intro h
      simp [getSessionTokenFromEnv, hlen h, h]
  · constructor
    · intro h
      simp only [getSessionTokenFromCache] at h
      split at h
      · rename_i hc; exact hc.2
      · cases h
    · intro h
      have hne : pyStrip t ≠ [] := by
        intro he; rw [he] at h; simp at h
      simp [getSessionTokenFromCache, hne, h]

/-! ## Lemmas about splitext and the extension table -/

/-- Last-occurrence search distributes over append: an occurrence in the
suffix wins, otherwise the search falls back to the prefix. -/
theorem rfindIdx_append (c : Char) (xs ys : List Char) :
    rfindIdx c (xs ++ ys) =
      (match rfindIdx c ys with
       | some r => some (xs.length + r)
       | none => rfindIdx c xs) := by
  induction xs with
  | nil => cases h : rfindIdx c ys <;> simp [h, rfindIdx]
  | cons x xs ih =>
      have hstep : rfindIdx c ((x :: xs) ++ ys) =
          (match rfindIdx c (xs ++ ys) with
           | some r => some (r + 1)
           | none => if x == c then some 0 else none) := rfl
      rw [hstep, ih]
      cases h : rfindIdx c ys with
      | none => rfl
      | some r =>
          simp only [Option.some.injEq, List.length_cons]
          omega

/-- A character that does not occur has no last occurrence. -/
theorem rfindIdx_eq_none_of_not_mem (c : Char) (l : List Char) (h : c ∉ l) :
    rfindIdx c l = none := by
  induction l with
  | nil => rfl
  | cons x xs ih =>
      have hx : ¬x == c := by
        simp only [List.mem_cons, not_or] at h
        simp [beq_iff_eq]
        exact fun he => h.1 he.symm
      simp only [rfindIdx, ih (by simp only [List.mem_cons, not_or] at h; exact h.2)]
      simp [hx]

/-- A last-occurrence index is within the string. -/
theorem rfindIdx_lt_length (c : Char) (l : List Char) (r : Nat)
    (h : rfindIdx c l = some r) : r < l.length := by
  induction l generalizing r with
  | nil => cases h
  | cons x xs ih =>
      simp only [rfindIdx] at h
      cases h2 : rfindIdx c xs with
      | some r2 =>
          rw [h2] at h
          injection h with h3
          have := ih r2 h2
          simp only [List.length_cons]
          omega
      | none =>
          rw [h2] at h
          by_cases hx : x == c
          · rw [if_pos hx] at h
            injection h with h3
            simp only [List.length_cons]
            omega
          · rw [if_neg hx] at h; cases h

/-- Appending a dot-extension (free of dots and slashes after the leading
dot) to a base whose final path component has a non-dot character splits
back into exactly that base and that extension. -/
theorem splitext_append (base s : List Char)
    (hdot : '.' ∉ s) (hsep : '/' ∉ s)
    (hgood : lastComponentHasNonDot base = true) :
    splitext (base ++ '.' :: s) = (base, '.' :: s) := by
  have hnd : rfindIdx '.' s = none := rfindIdx_eq_none_of_not_mem '.' s hdot
  have hns : rfindIdx '/' s = none := rfindIdx_eq_none_of_not_mem '/' s hsep
  have hdotIdx : rfindIdx '.' (base ++ '.' :: s) = some base.length := by
    rw [rfindIdx_append]
    have h1 : rfindIdx '.' ('.' :: s) = some 0 := by simp [rfindIdx, hnd]
    rw [h1]
    simp
  have hsepEq : rfindIdx '/' (base ++ '.' :: s) = rfindIdx '/' base := by
    rw [rfindIdx_append]
    have h1 : rfindIdx '/' ('.' :: s) = none := by simp [rfindIdx, hns]
    rw [h1]
  have htake : (base ++ '.' :: s).take base.length = base :=
    List.take_left base ('.' :: s)
  have hdrop : (base ++ '.' :: s).drop base.length = '.' :: s :=
    List.drop_left base ('.' :: s)
  simp only [lastComponentHasNonDot] at hgood
  simp only [splitext, hdotIdx, hsepEq]
  cases hsi : rfindIdx '/' base with
  | none =>
      have hfi : fiOf base = 0 := by simp [fiOf, hsi]
      rw [hfi] at hgood
      have hw : ((base ++ '.' :: s).drop 0).take (base.length - 0) = base := by
        simp only [List.drop_zero, Nat.sub_zero]
        exact htake
      simp [hw, htake, hdrop]
      simpa using hgood
  | some si =>
      have hlt : si < base.length := rfindIdx_lt_length '/' base si hsi
      have hfi : fiOf base = si + 1 := by simp [fiOf, hsi]
      rw [hfi] at hgood
      have hdrop2 : (base ++ '.' :: s).drop (si + 1) = base.drop (si + 1) ++ '.' :: s := by
        rw [List.drop_append_eq_append_drop]
        have h0 : si + 1 - base.length = 0 := by omega
        rw [h0]
        simp
      have hwin : ((base ++ '.' :: s).drop (si + 1)).take (base.length - (si + 1)) =
          base.drop (si + 1) := by
        rw [hdrop2, List.take_append_eq_append_take]
        have hl : base.length - (si + 1) = (base.drop (si + 1)).length := by simp
        rw [hl, List.take_length]
        simp
      simp [hwin, hlt, htake, hdrop]
      simpa using hgood

/-- The extension table only ever produces one of its five entries. -/
theorem targetExt_cases (mime : List Char) :
    getExtensionFromMime mime = ".png".data ∨
      getExtensionFromMime mime = ".webp".data ∨
      getExtensionFromMime mime = ".tif".data ∨
      getExtensionFromMime mime = ".mp4".data ∨
      getExtensionFromMime mime = ".jpeg".data := by
  simp only [getExtensionFromMime]
  repeat' split
  all_goals decide

/-- Every table entry is a dot followed by a non-empty, lowercase tail
free of dots and slashes. -/
theorem targetExt_shape (mime : List Char) :
    ∃ s, getExtensionFromMime mime = '.' :: s ∧ s ≠ [] ∧
      '.' ∉ s ∧ '/' ∉ s ∧ lowerStr ('.' :: s) = '.' :: s := by
  rcases targetExt_cases mime with h | h | h | h | h <;> rw [h]
  · exact ⟨['p', 'n', 'g'], by decide⟩
  · exact ⟨['w', 'e', 'b', 'p'], by decide⟩
  · exact ⟨['t', 'i', 'f'], by decide⟩
  · exact ⟨['m', 'p', '4'], by decide⟩
  · exact ⟨['j', 'p', 'e', 'g'], by decide⟩

/-- When the lowercased splitext extension of a name equals the
MIME-implied extension, the legacy normalization keeps the name
byte-for-byte. -/
theorem sanitize_matching (name mime : List Char)
    (h : lowerStr (splitext name).2 = getExtensionFromMime mime) :
    sanitizeFilenameExtension name mime = name := by
  obtain ⟨s, hshape, hsne, _, _, _⟩ := targetExt_shape mime
  have hne : (splitext name).2 ≠ [] := by
    intro he
    rw [he, hshape] at h
    cases h
  have hnamene : name ≠ [] := by
    intro he
    subst he
    exact hne rfl
  simp only [sanitizeFilenameExtension, if_neg hnamene, if_pos hne]
  rw [h]
  have htne : getExtensionFromMime mime ≠ [] := by
    rw [hshape]; intro hc; cases hc
  rw [if_neg htne, if_pos rfl]

/-- Appending the MIME extension to a base whose final path component has
a non-dot character produces a fixed point of the normalization. -/
theorem sanitize_fixed_of_good (base mime : List Char)
    (hgood : lastComponentHasNonDot base = true) :
    sanitizeFilenameExtension (base ++ getExtensionFromMime mime) mime =
      base ++ getExtensionFromMime mime := by
  obtain ⟨s, hshape, hsne, hdot, hsep, hlow⟩ := targetExt_shape mime
  apply sanitize_matching
  rw [hshape, splitext_append base s hdot hsep hgood]
  simp only []
  rw [hlow, ← hshape]

/-- Claim C7: the legacy normalization keeps a name byte-for-byte
unchanged whenever the name's extension matches the MIME-implied one
case-insensitively; but CivitaiImage._get_safe_filename compares the
rsplit extension (which carries no dot) against the dotted target, so its
keep-unchanged branch is unreachable and a matching upper-case extension
gets rewritten to lower case, changing the name. -/
theorem claim7_matching_extension :
    (∀ name mime : List Char,
        lowerStr (splitext name).2 = getExtensionFromMime mime →
        sanitizeFilenameExtension name mime = name) ∧
      sanitizeFilenameExtension "IMG.PNG".data "image/png".data = "IMG.PNG".data ∧
      getSafeFilename "IMG.PNG".data "image/png".data = "IMG.png".data ∧
      "IMG.png".data ≠ "IMG.PNG".data :=
  ⟨sanitize_matching, by decide, by decide, by decide⟩

/-- Witness for claim C7: a name with a matching upper-case extension is
kept unchanged by the legacy normalization. -/
theorem claim7_matching_extension_witness :
    sanitizeFilenameExtension "photo.JPEG".data "image/jpeg".data =
      "photo.JPEG".data :=
  claim7_matching_extension.1 "photo.JPEG".data "image/jpeg".data (by decide)

/-- Counterexample to claim C8: with name ".." and MIME image/png the
legacy normalization yields "...png", whose splitext extension is again
empty (the basename is all dots), so the second application appends the
extension once more and the two results differ. -/
theorem claim8_counterexample :
    sanitizeFilenameExtension
        (sanitizeFilenameExtension "..".data "image/png".data) "image/png".data ≠
      sanitizeFilenameExtension "..".data "image/png".data := by
  decide

/-- Claim C8 as amended: the normalization is idempotent for the empty
name and for every name whose splitext root keeps a non-dot character in
its final path component; the excluded names (extension-less with a final
component that is empty or all dots, such as ".." or "dir/") are exactly
the ones the counterexample exhibits. -/
theorem claim8_amended (name mime : List Char)
    (h : name = [] ∨ lastComponentHasNonDot (splitext name).1 = true) :
    sanitizeFilenameExtension (sanitizeFilenameExtension name mime) mime =
      sanitizeFilenameExtension name mime := by
  rcases h with h | h
  · subst h
    have h1 : sanitizeFilenameExtension [] mime =
        "unknown".data ++ getExtensionFromMime mime := by
      simp [sanitizeFilenameExtension]
    rw [h1]
    exact sanitize_fixed_of_good "unknown".data mime (by decide)
  · by_cases hname : name = []
    · subst hname
      exact absurd h (by decide)
    · cases hsplit : splitext name with
      | mk root ext =>
          rw [hsplit] at h
          by_cases hextnil : ext = []
          · have h1 : sanitizeFilenameExtension name mime =
                root ++ getExtensionFromMime mime := by
              simp only [sanitizeFilenameExtension, if_neg hname, hsplit]
              simp [hextnil]
            rw [h1]
            exact sanitize_fixed_of_good root mime h
          · by_cases hmatch : lowerStr ext = getExtensionFromMime mime
            · have h1 : sanitizeFilenameExtension name mime = name :=
                sanitize_matching name mime (by rw [hsplit]; exact hmatch)
              rw [h1]
              exact h1
            · have hmatch2 : ¬(List.map Char.toLower ext = getExtensionFromMime mime) := by
                simpa [lowerStr] using hmatch
              have h1 : sanitizeFilenameExtension name mime =
                  root ++ getExtensionFromMime mime := by
                simp only [sanitizeFilenameExtension, if_neg hname, hsplit]
                simp [hextnil, hmatch2, lowerStr]
              rw [h1]
              exact sanitize_fixed_of_good root mime h

/-- Witness for claim C8: an ordinary name without extension gains one
and is then stable. -/
theorem claim8_amended_witness :
    sanitizeFilenameExtension
        (sanitizeFilenameExtension "img".data "image/png".data) "image/png".data =
      sanitizeFilenameExtension "img".data "image/png".data :=
  claim8_amended "img".data "image/png".data (Or.inr (by decide))

/-- Witness for claim C6: a 101-character token is trusted by the config
source. -/
theorem claim6_amended_witness :
    getSessionTokenFromConfig (some token101) = some token101 :=
  (claim6_amended token101).1.mpr (by decide)

/-- Counterexample to claim C5: with two checkpoint-typed resources in
list order A then B, the merged model identity is ModelB/vB, i.e. the
later checkpoint replaced the first one. -/
theorem claim5_counterexample :
    processResources [.obj checkpointResA, .obj checkpointResB] =
      .ok (.str "ModelB", .str "vB", []) := rfl

/-- Processing distributes over concatenation of the resources list. -/
theorem processFrom_append (l1 l2 : List JVal) (st : JVal × JVal × List JVal) :
    processResourcesFrom (l1 ++ l2) st =
      (match processResourcesFrom l1 st with
       | .ok st1 => processResourcesFrom l2 st1
       | .error e => .error e) := by
  induction l1 generalizing st with
  | nil => simp [processResourcesFrom]
  | cons r rest ih =>
      obtain ⟨mn, mv, loras⟩ := st
      cases r with
      | obj kvs =>
          simp only [List.cons_append, processResourcesFrom]
          cases hty : getResourceType kvs with
          | error e => rfl
          | ok ty =>
              simp only []
              split
              · exact ih _
              · split
                · exact ih _
                · split
                  · exact ih _
                  · exact ih _
      | null => rfl
      | bool b => rfl
      | num n => rfl
      | str s => rfl
      | arr xs => rfl

/-- Processing a single checkpoint-typed resource overwrites the incoming
model identity with that resource's name and version. -/
theorem process_single_checkpoint (ck : List (String × JVal))
    (st : JVal × JVal × List JVal)
    (h : getResourceType ck = .ok "checkpoint") :
    processResourcesFrom [.obj ck] st =
      .ok ((pyGet ck "modelName").getD .null,
        (if truthy ((pyGet ck "versionName").getD .null) then
            (pyGet ck "versionName").getD .null
          else .str ""),
        st.2.2) := by
  obtain ⟨mn, mv, loras⟩ := st
  simp [processResourcesFrom, h]

/-- Claim C5 as amended: whatever comes before it, the LAST
checkpoint-typed resource of the list determines the merged model name
and model version (each checkpoint overwrites the identity, so earlier
checkpoints are replaced, not preserved). -/
theorem claim5_amended (rs : List JVal) (ck : List (String × JVal))
    (out : JVal × JVal × List JVal)
    (hck : getResourceType ck = .ok "checkpoint")
    (h : processResources (rs ++ [.obj ck]) = .ok out) :
    out.1 = (pyGet ck "modelName").getD .null ∧
      out.2.1 = (if truthy ((pyGet ck "versionName").getD .null) then
          (pyGet ck "versionName").getD .null
        else .str "") := by
  unfold processResources at h
  rw [processFrom_append] at h
  cases hr : processResourcesFrom rs (.str "Unknown", .str "", []) with
  | error e => rw [hr] at h; cases h
  | ok st1 =>
      rw [hr] at h
      have h2 : processResourcesFrom [JVal.obj ck] st1 = Except.ok out := h
      rw [process_single_checkpoint ck st1 hck] at h2
      injection h2 with h3
      rw [← h3]
      exact ⟨rfl, rfl⟩

/-- Witness for claim C5: instantiating the amended claim on the
two-checkpoint counterexample input. -/
theorem claim5_amended_witness :
    (JVal.str "ModelB", JVal.str "vB", ([] : List JVal)).1 =
        (pyGet checkpointResB "modelName").getD .null ∧
      (JVal.str "ModelB", JVal.str "vB", ([] : List JVal)).2.1 =
        (if truthy ((pyGet checkpointResB "versionName").getD .null) then
            (pyGet checkpointResB "versionName").getD .null
          else .str "") :=
  claim5_amended [.obj checkpointResA] checkpointResB
    (.str "ModelB", .str "vB", []) rfl rfl

/-- Counterexample to claim C9: an item that stores an explicit null
under user (and has no flat username) makes the resolution raise
AttributeError, because item.get("user", dict()) returns the stored null,
not the default dict. -/
theorem claim9_counterexample :
    resolveAuthor [("user", JVal.null)] = .error "AttributeError" := rfl

/-- Claim C9 as amended: whenever the user and account keys, where
present, hold dict values (in particular whenever they are simply
absent), the resolution never raises and returns exactly the
specification chain: flat username, then user.username, then
account.username, else the "Unknown" sentinel.  An explicit non-dict
value such as user: null makes it raise instead. -/
theorem claim9_amended (item : List (String × JVal))
    (hu : ∀ v, pyGet item "user" = some v → isObjJ v = true)
    (ha : ∀ v, pyGet item "account" = some v → isObjJ v = true) :
    resolveAuthor item = .ok (authorSpecLookup item) := by
  have huser : mapGetAttr ((pyGet item "user").getD (.obj [])) "username" =
      .ok (match pyGet item "user" with
           | some (.obj kvs) => (pyGet kvs "username").getD .null
           | _ => .null) := by
    cases hu2 : pyGet item "user" with
    | none => rfl
    | some v =>
        have hv := hu v hu2
        cases v with
        | obj kvs => rfl
        | null => simp [isObjJ] at hv
        | bool b => simp [isObjJ] at hv
        | num n => simp [isObjJ] at hv
        | str s => simp [isObjJ] at hv
        | arr xs => simp [isObjJ] at hv
  have haccount : mapGetAttr ((pyGet item "account").getD (.obj [])) "username" =
      .ok (match pyGet item "account" with
           | some (.obj kvs) => (pyGet kvs "username").getD .null
           | _ => .null) := by
    cases ha2 : pyGet item "account" with
    | none => rfl
    | some v =>
        have hv := ha v ha2
        cases v with
        | obj kvs => rfl
        | null => simp [isObjJ] at hv
        | bool b => simp [isObjJ] at hv
        | num n => simp [isObjJ] at hv
        | str s => simp [isObjJ] at hv
        | arr xs => simp [isObjJ] at hv
  simp only [resolveAuthor, authorSpecLookup, huser, haccount]
  repeat' split
  all_goals rfl

/-- Witness for claim C9 on an item whose author comes from the nested
user object. -/
theorem claim9_amended_witness :
    resolveAuthor [("user", JVal.obj [("username", JVal.str "alice")])] =
      .ok (authorSpecLookup [("user", JVal.obj [("username", JVal.str "alice")])]) := by
  apply claim9_amended
  · intro v h
    simp [pyGet] at h
    rw [← h]
    rfl
  · intro v h
    simp [pyGet] at h
